import Mathlib

/-!
Verification of the arc-shopping-list state/aggregation core.

This file gives a shallow embedding of the persisted state store
(`src/state-manager.js`, `src/state-manager.ts`: class `StateManager`) and of
the catalog/aggregation engine (`src/state-manager.ts`: class `DataLoader`),
and proves properties of the embedded operations.

JavaScript runtime values are modelled by `JsValue`; plain objects are
association lists in insertion order.  Operations that can throw a JS
`TypeError` are modelled in `Except String`.  Two deliberate abstractions:
the `in` operator is modelled as own-property membership (prototype-chain
hits are outside the model), and a thrown execution discards the partially
mutated tree (no claim below inspects the tree after a throw).
-/

/-- A JavaScript runtime value.  Objects are association lists of
string keys to values, kept in insertion order as JS objects are. -/
inductive JsValue where
  | vUndefined : JsValue
  | vNull : JsValue
  | vBool : Bool → JsValue
  | vNum : Int → JsValue
  | vStr : String → JsValue
  | vObj : List (String × JsValue) → JsValue

/-- Association-list lookup: the value stored under key `k`, if present. -/
def assocLookup {α : Type} : List (String × α) → String → Option α
  | [], _ => none
  | (k', v) :: rest, k => if k' = k then some v else assocLookup rest k

/-- Own-property read used under the `key in current` guard. -/
def objGet (o : List (String × JsValue)) (k : String) : Option JsValue :=
  assocLookup o k

/-- JS property assignment `o[k] = v` on a plain object: replaces the value
in place when the key exists, appends the key otherwise. -/
def objSet (o : List (String × JsValue)) (k : String) (v : JsValue) :
    List (String × JsValue) :=
  match o with
  | [] => [(k, v)]
  | (k', v') :: rest =>
      if k' = k then (k, v) :: rest else (k', v') :: objSet rest k v

/-- JS truthiness of a value (`current && ...`). -/
def jsTruthy : JsValue → Bool
  | .vUndefined => false
  | .vNull => false
  | .vBool b => b
  | .vNum n => n != 0
  | .vStr s => s != ""
  | .vObj _ => true

/-- The test `typeof current === 'object'`.  JS quirk: `typeof null`
is `'object'`, so `null` passes this test. -/
def jsTypeofIsObject : JsValue → Bool
  | .vNull => true
  | .vObj _ => true
  | _ => false

/-- The JS `in` operator, which throws a `TypeError` when its right
operand is not an object. -/
def jsIn (k : String) : JsValue → Except String Bool
  | .vObj o => .ok (objGet o k).isSome
  | _ => .error "TypeError: cannot use in operator on a non-object"

/-- Property read `current[key]`; only ever used after `jsIn` reported the
key present on an object. -/
def jsIndex (k : String) : JsValue → JsValue
  | .vObj o => (objGet o k).getD .vUndefined
  | _ => .vUndefined

/-- Helper for `splitOnChar`: accumulates the current field (reversed). -/
def splitCharsAux (sep : Char) : List Char → List Char → List String
  | [], acc => [String.mk acc.reverse]
  | c :: rest, acc =>
      if c = sep then String.mk acc.reverse :: splitCharsAux sep rest []
      else splitCharsAux sep rest (c :: acc)

/-- JS `String.prototype.split(sep)` for a one-character separator: never
returns an empty list, `""` gives `[""]`, consecutive separators give
empty fields. -/
def splitOnChar (sep : Char) (s : String) : List String :=
  splitCharsAux sep s.data []

/-- `path.split('.')`: the key sequence of a dot-separated path. -/
def pathKeys (path : String) : List String :=
  splitOnChar '.' path

/-- `true` exactly on `Except.ok` results; models "did not throw". -/
def exceptOk {α : Type} : Except String α → Bool
  | .ok _ => true
  | .error _ => false

namespace StateManager

/-- The loop of `StateManager.get` (state-manager.js lines 61-74): walk the
keys, returning the default `d` the moment the current value is not a truthy
object or lacks the key.  The `key in current` step is the throwing `jsIn`,
guarded exactly as in the source. -/
def getLoop (d : JsValue) : JsValue → List String → Except String JsValue
  | cur, [] => .ok cur
  | cur, k :: rest =>
      if jsTruthy cur && jsTypeofIsObject cur then
        match jsIn k cur with
        | .error e => .error e
        | .ok true => getLoop d (jsIndex k cur) rest
        | .ok false => .ok d
      else .ok d

/-- `StateManager.get(path, defaultValue)` on an in-memory state tree. -/
def get (st : List (String × JsValue)) (path : String) (d : JsValue) :
    Except String JsValue :=
  getLoop d (.vObj st) (pathKeys path)

/-- Pure description of tree traversal: the value stored at the key
sequence, `none` when a key is absent or a non-object is reached. -/
def getPure : JsValue → List String → Option JsValue
  | v, [] => some v
  | v, k :: rest =>
      match v with
      | .vObj o =>
          match objGet o k with
          | some v' => getPure v' rest
          | none => none
      | _ => none

/-- `StateManager.set` walk (state-manager.js lines 81-100).  At each
intermediate key: a stored non-null object is descended into; a stored
`null` passes the `typeof ... === 'object'` check so it is NOT replaced,
and the very next `in`-test or property assignment on it throws; anything
else (absent key or non-object value) is overwritten with `{}` before
descending.  The final key is assigned on the reached object. -/
def setRun : List (String × JsValue) → List String → JsValue →
    Except String (List (String × JsValue))
  | _, [], _ => .error "unreachable: path.split yields a nonempty list"
  | o, [k], v => .ok (objSet o k v)
  | o, k :: k' :: rest, v =>
      match objGet o k with
      | some (.vObj o') =>
          match setRun o' (k' :: rest) v with
          | .ok o'' => .ok (objSet o k (.vObj o''))
          | .error e => .error e
      | some .vNull => .error "TypeError: cannot use in operator on null"
      | _ =>
          match setRun ([] : List (String × JsValue)) (k' :: rest) v with
          | .ok o'' => .ok (objSet o k (.vObj o''))
          | .error e => .error e

/-- Characterizes when the `set` walk succeeds: it fails only on the empty
key list (unreachable from a path) and when an intermediate key holds
`null`; freshly created `{}` nodes can never hold `null`. -/
def setWalkOk : List (String × JsValue) → List String → Bool
  | _, [] => false
  | _, [_] => true
  | o, k :: k' :: rest =>
      match objGet o k with
      | some (.vObj o') => setWalkOk o' (k' :: rest)
      | some .vNull => false
      | _ => true

/-- `StateManager.saveState` body (state-manager.js lines 48-54): the
`localStorage.setItem` call, which may throw (quota, security). -/
def saveStateRun (storageThrows : Bool) : Except String Unit :=
  if storageThrows then .error "QuotaExceededError" else .ok ()

/-- The `try { ... } catch { console.warn(...) }` around `saveState`:
the failure is absorbed, never propagated. -/
def saveStateCaught (storageThrows : Bool) : Unit :=
  match saveStateRun storageThrows with
  | .ok _ => ()
  | .error _ => ()

/-- `StateManager.notifyListeners(path, value)` (state-manager.js lines
208-218): every callback registered for exactly `path` is invoked with
`(path, value)`.  Callbacks are identified by opaque ids; an invocation is
recorded as `(callbackId, path, value)`. -/
def notifyListeners (listeners : List (String × Nat)) (path : String)
    (v : JsValue) : List (Nat × String × JsValue) :=
  (listeners.filter (fun e => e.1 = path)).map (fun e => (e.2, path, v))

/-- Full `StateManager.set(path, value)`: walk/assign, then persist
(failures caught), then synchronously notify listeners for the exact
path.  Returns the new tree and the list of listener invocations. -/
def setFull (storageThrows : Bool) (listeners : List (String × Nat))
    (st : List (String × JsValue)) (path : String) (v : JsValue) :
    Except String ((List (String × JsValue)) × List (Nat × String × JsValue)) :=
  match setRun st (pathKeys path) v with
  | .error e => .error e
  | .ok t =>
      let _ := saveStateCaught storageThrows
      .ok (t, notifyListeners listeners path v)

/-- The two durable keys: `arc-shopping-list-state` (JSON blob) and the
legacy `arc-shopping-list-theme` (plain theme string).  `none` means the
key is absent from local storage. -/
structure LocalStorage where
  stateBlob : Option String
  themeBlob : Option String

/-- JS `x || d` on a storage read: `getItem` returns the stored string or
null, and the empty string is falsy, so both an absent key and a stored
`""` fall back to `d`. -/
def jsOrDefault (s : Option String) (d : String) : String :=
  match s with
  | some v => if v = "" then d else v
  | none => d

/-- `StateManager.initializeStateStructure` (source name
`initializeStateStructure`, state-manager.js lines 33-43): ensure a
`collapsed` mapping exists and a truthy `theme`, the latter defaulting to
the legacy storage key's value or `'light'`. -/
def initStateStructure (st : List (String × JsValue)) (store : LocalStorage) :
    List (String × JsValue) :=
  let st1 :=
    if jsTruthy ((objGet st "collapsed").getD .vUndefined) then st
    else objSet st "collapsed" (.vObj [])
  if jsTruthy ((objGet st1 "theme").getD .vUndefined) then st1
  else objSet st1 "theme" (.vStr (jsOrDefault store.themeBlob "light"))

/-- `StateManager.clearState` (state-manager.js lines 230-235): reset the
tree to `{}`, re-run the structure initializer (which still reads the
legacy theme key, since the removals happen AFTER it), then remove both
durable keys. -/
def clearState (store : LocalStorage) :
    (List (String × JsValue)) × LocalStorage :=
  let st := initStateStructure [] store
  (st, { stateBlob := none, themeBlob := none })

theorem objGet_objSet_self (o : List (String × JsValue)) (k : String)
    (v : JsValue) : objGet (objSet o k v) k = some v := by
  induction o with
  | nil => simp [objGet, objSet, assocLookup]
  | cons hd tl ih =>
    obtain ⟨k', v'⟩ := hd
    by_cases h : k' = k
    · simp [objGet, objSet, assocLookup, h]
    · simpa [objGet, objSet, assocLookup, h] using ih

theorem getLoop_spec (ks : List String) : ∀ (d cur : JsValue),
    getLoop d cur ks = Except.ok ((getPure cur ks).getD d) := by
  induction ks with
  | nil => intro d cur; rfl
  | cons k rest ih =>
    intro d cur
    cases cur with
    | vObj o =>
      cases hg : objGet o k with
      | some v' =>
        simp [getLoop, getPure, jsTruthy, jsTypeofIsObject, jsIn, jsIndex,
          hg, ih]
      | none =>
        simp [getLoop, getPure, jsTruthy, jsTypeofIsObject, jsIn, jsIndex, hg]
    | vNull => simp [getLoop, getPure, jsTruthy]
    | vUndefined => simp [getLoop, getPure, jsTruthy]
    | vBool b => simp [getLoop, getPure, jsTruthy, jsTypeofIsObject]
    | vNum n => simp [getLoop, getPure, jsTruthy, jsTypeofIsObject]
    | vStr s => simp [getLoop, getPure, jsTruthy, jsTypeofIsObject]

theorem setRun_fresh_ok (ks : List String) : ∀ (k : String) (v : JsValue),
    exceptOk (setRun [] (k :: ks) v) = true := by
  induction ks with
  | nil => intro k v; rfl
  | cons k' rest ih =>
    intro k v
    have h := ih k' v
    simp only [setRun, objGet, assocLookup]
    cases hs : setRun [] (k' :: rest) v with
    | ok t => simp [exceptOk]
    | error e => rw [hs] at h; simp [exceptOk] at h

theorem exceptOk_setRun (ks : List String) :
    ∀ (o : List (String × JsValue)) (v : JsValue),
    exceptOk (setRun o ks v) = setWalkOk o ks := by
  induction ks with
  | nil => intro o v; rfl
  | cons k rest ih =>
    intro o v
    cases rest with
    | nil => rfl
    | cons k' rest' =>
      cases hg : objGet o k with
      | none =>
        have h := setRun_fresh_ok rest' k' v
        simp only [setRun, setWalkOk, hg]
        cases hs : setRun [] (k' :: rest') v with
        | ok t => simp [exceptOk]
        | error e => rw [hs] at h; simp [exceptOk] at h
      | some val =>
        cases val with
        | vObj o' =>
          have h := ih o' v
          simp only [setRun, setWalkOk, hg]
          cases hs : setRun o' (k' :: rest') v with
          | ok t => rw [hs] at h; simpa [exceptOk] using h.symm
          | error e => rw [hs] at h; simpa [exceptOk] using h.symm
        | vNull => simp [setRun, setWalkOk, hg, exceptOk]
        | vUndefined =>
          have h := setRun_fresh_ok rest' k' v
          simp only [setRun, setWalkOk, hg]
          cases hs : setRun [] (k' :: rest') v with
          | ok t => simp [exceptOk]
          | error e => rw [hs] at h; simp [exceptOk] at h
        | vBool b =>
          have h := setRun_fresh_ok rest' k' v
          simp only [setRun, setWalkOk, hg]
          cases hs : setRun [] (k' :: rest') v with
          | ok t => simp [exceptOk]
          | error e => rw [hs] at h; simp [exceptOk] at h
        | vNum n =>
          have h := setRun_fresh_ok rest' k' v
          simp only [setRun, setWalkOk, hg]
          cases hs : setRun [] (k' :: rest') v with
          | ok t => simp [exceptOk]
          | error e => rw [hs] at h; simp [exceptOk] at h
        | vStr s =>
          have h := setRun_fresh_ok rest' k' v
          simp only [setRun, setWalkOk, hg]
          cases hs : setRun [] (k' :: rest') v with
          | ok t => simp [exceptOk]
          | error e => rw [hs] at h; simp [exceptOk] at h

theorem setRun_getPure (ks : List String) :
    ∀ (o t : List (String × JsValue)) (v : JsValue),
    setRun o ks v = Except.ok t → getPure (.vObj t) ks = some v := by
  induction ks with
  | nil => intro o t v h; simp [setRun] at h
  | cons k rest ih =>
    intro o t v h
    cases rest with
    | nil =>
      simp only [setRun, Except.ok.injEq] at h
      subst h
      simp [getPure, objGet_objSet_self]
    | cons k' rest' =>
      cases hg : objGet o k with
      | none =>
        rw [show setRun o (k :: k' :: rest') v
            = (match setRun [] (k' :: rest') v with
               | .ok o'' => .ok (objSet o k (.vObj o''))
               | .error e => .error e) by simp [setRun, hg]] at h
        cases hs : setRun [] (k' :: rest') v with
        | ok o'' =>
          rw [hs] at h
          simp only [Except.ok.injEq] at h
          subst h
          simp [getPure, objGet_objSet_self]
          exact ih _ _ _ hs
        | error e => rw [hs] at h; simp at h
      | some val =>
        cases val with
        | vObj o' =>
          rw [show setRun o (k :: k' :: rest') v
              = (match setRun o' (k' :: rest') v with
                 | .ok o'' => .ok (objSet o k (.vObj o''))
                 | .error e => .error e) by simp [setRun, hg]] at h
          cases hs : setRun o' (k' :: rest') v with
          | ok o'' =>
            rw [hs] at h
            simp only [Except.ok.injEq] at h
            subst h
            simp [getPure, objGet_objSet_self]
            exact ih _ _ _ hs
          | error e => rw [hs] at h; simp at h
        | vNull => simp [setRun, hg] at h
        | vUndefined =>
          rw [show setRun o (k :: k' :: rest') v
              = (match setRun [] (k' :: rest') v with
                 | .ok o'' => .ok (objSet o k (.vObj o''))
                 | .error e => .error e) by simp [setRun, hg]] at h
          cases hs : setRun [] (k' :: rest') v with
          | ok o'' =>
            rw [hs] at h
            simp only [Except.ok.injEq] at h
            subst h
            simp [getPure, objGet_objSet_self]
            exact ih _ _ _ hs
          | error e => rw [hs] at h; simp at h
        | vBool b =>
          rw [show setRun o (k :: k' :: rest') v
              = (match setRun [] (k' :: rest') v with
                 | .ok o'' => .ok (objSet o k (.vObj o''))
                 | .error e => .error e) by simp [setRun, hg]] at h
          cases hs : setRun [] (k' :: rest') v with
          | ok o'' =>
            rw [hs] at h
            simp only [Except.ok.injEq] at h
            subst h
            simp [getPure, objGet_objSet_self]
            exact ih _ _ _ hs
          | error e => rw [hs] at h; simp at h
        | vNum n =>
          rw [show setRun o (k :: k' :: rest') v
              = (match setRun [] (k' :: rest') v with
                 | .ok o'' => .ok (objSet o k (.vObj o''))
                 | .error e => .error e) by simp [setRun, hg]] at h
          cases hs : setRun [] (k' :: rest') v with
          | ok o'' =>
            rw [hs] at h
            simp only [Except.ok.injEq] at h
            subst h
            simp [getPure, objGet_objSet_self]
            exact ih _ _ _ hs
          | error e => rw [hs] at h; simp at h
        | vStr s =>
          rw [show setRun o (k :: k' :: rest') v
              = (match setRun [] (k' :: rest') v with
                 | .ok o'' => .ok (objSet o k (.vObj o''))
                 | .error e => .error e) by simp [setRun, hg]] at h
          cases hs : setRun [] (k' :: rest') v with
          | ok o'' =>
            rw [hs] at h
            simp only [Except.ok.injEq] at h
            subst h
            simp [getPure, objGet_objSet_self]
            exact ih _ _ _ hs
          | error e => rw [hs] at h; simp at h

end StateManager

/-- C6: for every state tree, dot-separated path and caller default,
`StateManager.get(path, defaultValue)` never throws: it always returns
normally, with the stored value when the pure traversal reaches one, and
with the default as soon as a key is absent or a non-traversable value
(null, number, string, boolean, undefined) is reached. -/
theorem stateManager_get_never_throws (st : List (String × JsValue))
    (path : String) (d : JsValue) :
    StateManager.get st path d
      = Except.ok ((StateManager.getPure (.vObj st) (pathKeys path)).getD d) :=
  StateManager.getLoop_spec (pathKeys path) d (.vObj st)

/-- C5 counterexample: on the tree `{a: null}`, `set("a.b", 5)` throws a
TypeError instead of completing — `typeof null === 'object'`, so the null
intermediate is NOT overwritten, and the next walk step uses `in` on null. -/
theorem stateManager_set_null_counterexample :
    exceptOk (StateManager.setRun [("a", JsValue.vNull)] (pathKeys "a.b")
      (JsValue.vNum 5)) = false := rfl

/-- C5 (amended): `set(path, value)` terminates without throwing exactly
when the walk never descends into a stored `null` (missing intermediates
are created as `{}`, non-null non-object intermediates are overwritten,
but a stored null passes the `typeof ... === 'object'` test and makes the
next step throw); whenever it completes, an immediately following
`get(path)` returns exactly `value`. -/
theorem stateManager_set_get_roundtrip (st : List (String × JsValue))
    (path : String) (v : JsValue) :
    exceptOk (StateManager.setRun st (pathKeys path) v)
      = StateManager.setWalkOk st (pathKeys path)
    ∧ ∀ t d, StateManager.setRun st (pathKeys path) v = Except.ok t →
        StateManager.get t path d = Except.ok v := by
  refine ⟨StateManager.exceptOk_setRun _ _ _, ?_⟩
  intro t d h
  have hp := StateManager.setRun_getPure _ _ _ _ h
  unfold StateManager.get
  rw [StateManager.getLoop_spec, hp]
  rfl

/-- C5 witness: starting from `{a: 3}` (a non-object intermediate that is
overwritten), set then get at "a.b.c" returns the written value. -/
theorem stateManager_set_get_roundtrip_witness :
    StateManager.get
      [("a", JsValue.vObj [("b", JsValue.vObj [("c", JsValue.vStr "done")])])]
      "a.b.c" (JsValue.vStr "fallback") = Except.ok (JsValue.vStr "done") :=
  (stateManager_set_get_roundtrip [("a", JsValue.vNum 3)] "a.b.c"
    (JsValue.vStr "done")).2 _ _ rfl

/-- C7: when the durable-storage write throws during `set`, `set` still
completes normally (the exception is absorbed by the try/catch in
`saveState`): the result equals the no-failure run, the in-memory tree
holds the value at the path, and every listener registered for that exact
path string is still invoked with `(path, value)`. -/
theorem stateManager_set_storage_throw (listeners : List (String × Nat))
    (st t : List (String × JsValue)) (path : String) (v : JsValue)
    (h : StateManager.setRun st (pathKeys path) v = Except.ok t) :
    StateManager.setFull true listeners st path v
      = Except.ok (t, StateManager.notifyListeners listeners path v)
    ∧ StateManager.setFull true listeners st path v
      = StateManager.setFull false listeners st path v
    ∧ (∀ d, StateManager.get t path d = Except.ok v)
    ∧ ∀ cb, (path, cb) ∈ listeners →
        (cb, path, v) ∈ StateManager.notifyListeners listeners path v := by
  refine ⟨?_, ?_, ?_, ?_⟩
  · simp [StateManager.setFull, h]
  · simp [StateManager.setFull, h]
  · intro d
    have hp := StateManager.setRun_getPure _ _ _ _ h
    unfold StateManager.get
    rw [StateManager.getLoop_spec, hp]
    rfl
  · intro cb hcb
    exact List.mem_map_of_mem _ (List.mem_filter.mpr ⟨hcb, by simp⟩)

/-- C7 witness: a concrete set on an empty tree with a failing storage
write and one registered listener. -/
theorem stateManager_set_storage_throw_witness :
    StateManager.setFull true [("a.b", 7)] [] "a.b" (JsValue.vBool true)
      = Except.ok ([("a", JsValue.vObj [("b", JsValue.vBool true)])],
          [(7, "a.b", JsValue.vBool true)]) :=
  (stateManager_set_storage_throw [("a.b", 7)] [] _ "a.b"
    (JsValue.vBool true) rfl).1

/-- C10 counterexample: with the legacy theme key present but holding the
empty string, `clearState` leaves the in-memory theme at `"light"`, not at
the stored value — `getItem(...) || 'light'` treats `""` as falsy. -/
theorem stateManager_clearState_counterexample :
    objGet (StateManager.clearState
        { stateBlob := some "s", themeBlob := some "" }).1 "theme"
      = some (JsValue.vStr "light")
    ∧ ("light" : String) ≠ "" :=
  ⟨rfl, by decide⟩

/-- C10 (amended): `clearState()` re-initializes the default structure
before removing the two storage keys: afterwards the collapsed mapping is
empty and both keys are removed, and the in-memory theme equals the value
stored under the legacy theme key at call time whenever a non-empty one
was present, falling back to `"light"` when that key was absent or held
the (falsy) empty string. -/
theorem stateManager_clearState_spec (store : StateManager.LocalStorage) :
    objGet (StateManager.clearState store).1 "collapsed"
      = some (JsValue.vObj [])
    ∧ (StateManager.clearState store).2.stateBlob = none
    ∧ (StateManager.clearState store).2.themeBlob = none
    ∧ (∀ s, store.themeBlob = some s → s ≠ "" →
        objGet (StateManager.clearState store).1 "theme"
          = some (JsValue.vStr s))
    ∧ ((store.themeBlob = none ∨ store.themeBlob = some "") →
        objGet (StateManager.clearState store).1 "theme"
          = some (JsValue.vStr "light")) := by
  obtain ⟨sb, tb⟩ := store
  refine ⟨?_, rfl, rfl, ?_, ?_⟩
  · cases tb <;>
      simp [StateManager.clearState, StateManager.initStateStructure,
        StateManager.jsOrDefault, objGet, objSet, assocLookup, jsTruthy]
  · intro s hs hne
    cases hs
    simp [StateManager.clearState, StateManager.initStateStructure,
      StateManager.jsOrDefault, objGet, objSet, assocLookup, jsTruthy, hne]
  · intro hcase
    rcases hcase with h | h <;> cases h <;>
      simp [StateManager.clearState, StateManager.initStateStructure,
        StateManager.jsOrDefault, objGet, objSet, assocLookup, jsTruthy]

/-- C10 witness: a stored non-empty legacy theme value survives clearState
into the fresh in-memory tree. -/
theorem stateManager_clearState_spec_witness :
    objGet (StateManager.clearState
        { stateBlob := some "x", themeBlob := some "dark" }).1 "theme"
      = some (JsValue.vStr "dark") :=
  (stateManager_clearState_spec _).2.2.2.1 "dark" rfl (by decide)

namespace DataLoader

/-- ASCII lowercasing of one character, the effect of
`String.prototype.toLowerCase` on the characters this slug keeps. -/
def lowerChar (c : Char) : Char :=
  if 65 ≤ c.toNat ∧ c.toNat ≤ 90 then Char.ofNat (c.toNat + 32) else c

/-- One step of `.replace(/[^a-z0-9]/g, '-')`: a character outside
`[a-z0-9]` becomes `'-'`. -/
def slugChar (c : Char) : Char :=
  if (97 ≤ c.toNat ∧ c.toNat ≤ 122) ∨ (48 ≤ c.toNat ∧ c.toNat ≤ 57) then c
  else '-'

/-- `name.toLowerCase().replace(/[^a-z0-9]/g, '-')`. -/
def slug (s : String) : String :=
  String.mk (s.data.map (fun c => slugChar (lowerChar c)))

/-- `DataLoader.generateItemId(name, requirement)` (state-manager.ts lines
452-460): slug of the name, with the slug of the requirement appended after
a dash when the requirement string is truthy (non-empty). -/
def generateItemId (name : String) (requirement : String := "") : String :=
  if requirement ≠ "" then slug name ++ "-" ++ slug requirement
  else slug name

/-- JS `String.prototype.trim`: strip whitespace from both ends. -/
def trimChars (s : String) : String :=
  String.mk
    (((s.data.dropWhile Char.isWhitespace).reverse.dropWhile
        Char.isWhitespace).reverse)

/-- `item.requirement.split(',').map(req => req.trim())`. -/
def splitRequirements (s : String) : List String :=
  (splitOnChar ',' s).map trimChars

/-- Longest digit prefix of a character list, as a number; `none` when the
first character is not a decimal digit (JS `parseInt` returns NaN). -/
def parseDigits (cs : List Char) : Option Nat :=
  let ds := cs.takeWhile Char.isDigit
  if ds.isEmpty then none
  else some (ds.foldl (fun a c => a * 10 + (c.toNat - 48)) 0)

/-- JS `parseInt(s, 10)`: skip leading whitespace, read an optional sign,
then the longest digit prefix; `none` models NaN. -/
def jsParseInt (s : String) : Option Int :=
  match s.data.dropWhile Char.isWhitespace with
  | '-' :: rest => (parseDigits rest).map (fun n => -(n : Int))
  | '+' :: rest => (parseDigits rest).map (fun n => (n : Int))
  | cs => (parseDigits cs).map (fun n => (n : Int))

/-- `parseInt(item.quantity, 10) || 1` (state-manager.ts line 414): the
parse result when it is a truthy (nonzero) number, `1` when the field is
missing or the parse yields NaN or `0`. -/
def parsedQuantity (raw : Option String) : Int :=
  match raw with
  | none => 1
  | some s =>
      match jsParseInt s with
      | none => 1
      | some n => if n = 0 then 1 else n

/-- `this.nonKeepableQuestItems` of `DataLoader` (state-manager.ts lines
297-318): the fixed exclusion set of mission-only quest item names. -/
def nonKeepableQuestItems : List String :=
  ["Burletta I",
   "Armored Patrol Key Card",
   "Battle Plans",
   "Battery Cell",
   "Celeste\x27s Journal 1",
   "Celeste\x27s Journal 2",
   "Communication Device",
   "Deflated Football",
   "Duct Tape",
   "ESR Analyzer",
   "Flag",
   "Helmet",
   "Major Aiva\x27s Mementos",
   "Possibly Toxic Plant",
   "Romance Book",
   "Detective Book",
   "Adventure Book",
   "First Wave Tape",
   "First Wave Compass",
   "First Wave Rations"]

/-- A loaded catalog item record: `name`, raw `quantity` field (string, or
`none` when the field is missing), raw `requirement` string, the carried
`id`, and the `projectName` tag present only on copies enriched for the
combined view. -/
structure Item where
  name : String
  quantity : Option String
  requirement : String
  id : String
  projectName : Option String := none

/-- The item copy made for one requirement token: `{ ...item, requirement,
id: generateItemId(item.name, requirement) }`. -/
def itemForGroup (it : Item) (req : String) : Item :=
  { it with requirement := req, id := generateItemId it.name req }

/-- `groups[requirement].push(itemForGroup)`, creating the bucket on first
use: append-or-create on an insertion-ordered association list. -/
def groupsAdd (groups : List (String × List Item)) (req : String)
    (it : Item) : List (String × List Item) :=
  match groups with
  | [] => [(req, [it])]
  | (k, l) :: rest =>
      if k = req then (k, l ++ [it]) :: rest
      else (k, l) :: groupsAdd rest req it

/-- The first phase of `DataLoader.groupItemsByRequirement`: split every
item's requirement on commas, trim each token, and push one independent
copy per token into that token's bucket. -/
def rawGroups (items : List Item) : List (String × List Item) :=
  items.foldl
    (fun gs it =>
      (splitRequirements it.requirement).foldl
        (fun gs req => groupsAdd gs req (itemForGroup it req)) gs)
    []

/-- `groupItems.some(item => !this.nonKeepableQuestItems.has(item.name))`. -/
def hasKeepable (l : List Item) : Bool :=
  l.any (fun it => !(nonKeepableQuestItems.contains it.name))

/-- `DataLoader.groupItemsByRequirement(items, projectName)`
(state-manager.ts lines 477-514): bucket the split copies by requirement
token; only for the quest-item source are buckets whose members are all
non-keepable dropped. -/
def groupItemsByRequirement (items : List Item) (projectName : String) :
    List (String × List Item) :=
  let groups := rawGroups items
  if projectName = "Quest items" then
    groups.filter (fun g => hasKeepable g.2)
  else groups

/-- One instance record of the Item Total Registry:
`{projectName, quantity, requirement}`. -/
structure ItemInstance where
  projectName : String
  quantity : Int
  requirement : String

/-- One registry entry: `{totalNeeded, instances}`. -/
structure ItemTotal where
  totalNeeded : Int
  instances : List ItemInstance

/-- One step of `DataLoader.buildItemTotals`: create the entry on first
sight of the id, then `totalNeeded += quantity` and push the instance. -/
def addInstance (reg : List (String × ItemTotal)) (id : String)
    (inst : ItemInstance) : List (String × ItemTotal) :=
  match reg with
  | [] => [(id, { totalNeeded := inst.quantity, instances := [inst] })]
  | (k, t) :: rest =>
      if k = id then
        (k, { totalNeeded := t.totalNeeded + inst.quantity,
              instances := t.instances ++ [inst] }) :: rest
      else (k, t) :: addInstance rest id inst

/-- `DataLoader.buildItemTotals()` (state-manager.ts lines 400-423): the
previous registry is discarded (`this.itemTotals = {}`) and the registry is
repopulated from every project's items. -/
def buildItemTotals (prevReg : List (String × ItemTotal))
    (projects : List (String × List Item)) : List (String × ItemTotal) :=
  let _ := prevReg
  projects.foldl
    (fun reg pi =>
      pi.2.foldl
        (fun reg it =>
          addInstance reg it.id
            { projectName := pi.1,
              quantity := parsedQuantity it.quantity,
              requirement := it.requirement })
        reg)
    []

/-- `DataLoader.getRemainingTotal(itemId, stateManager)` (state-manager.ts
lines 431-444): `totalNeeded` minus the quantities of instances whose
`(projectName, itemId)` completion lookup is true, clamped at zero; `0`
for an unknown id.  `completed` stands for
`stateManager.isItemCompleted`. -/
def getRemainingTotal (itemTotals : List (String × ItemTotal))
    (itemId : String) (completed : String → String → Bool) : Int :=
  match assocLookup itemTotals itemId with
  | none => 0
  | some t =>
      max 0
        (t.instances.foldl
          (fun rem inst =>
            if completed inst.projectName itemId then rem - inst.quantity
            else rem)
          t.totalNeeded)

end DataLoader

namespace DataLoader

/-- One entry of the `projects` list in the combined view:
`{projectName, quantity, requirement, completed}`. -/
structure ProjectEntry where
  projectName : String
  quantity : Int
  requirement : String
  completed : Bool

/-- One per-name summary of the combined view.  The source sets
`remainingQuantity` only in the second pass; during the first pass the
field is the `0` placeholder. -/
structure RemainingEntry where
  totalQuantity : Int
  completedQuantity : Int
  projects : List ProjectEntry
  remainingQuantity : Int

/-- The per-instance completion test of `getAllItemsRemaining`
(state-manager.ts lines 548-557): every trimmed comma-separated
requirement token's recomputed id must be completed in the instance's
project. -/
def isInstanceCompleted (completed : String → String → Bool) (pn : String)
    (it : Item) : Bool :=
  (splitRequirements it.requirement).all
    (fun req => completed pn (generateItemId it.name req))

/-- The accumulation step of the first pass: create the per-name summary on
first sight, then `totalQuantity += quantity`, add `quantity` to
`completedQuantity` when the instance is completed, and push the project
entry. -/
def remAdd (m : List (String × RemainingEntry)) (name : String)
    (pe : ProjectEntry) : List (String × RemainingEntry) :=
  match m with
  | [] =>
      [(name,
        { totalQuantity := pe.quantity,
          completedQuantity := if pe.completed then pe.quantity else 0,
          projects := [pe],
          remainingQuantity := 0 })]
  | (k, e) :: rest =>
      if k = name then
        (k, { e with
              totalQuantity := e.totalQuantity + pe.quantity,
              completedQuantity :=
                e.completedQuantity + (if pe.completed then pe.quantity else 0),
              projects := e.projects ++ [pe] }) :: rest
      else (k, e) :: remAdd rest name pe

/-- The first pass of `DataLoader.getAllItemsRemaining` (state-manager.ts
lines 524-570): fold over every project's items, skipping non-keepable
quest items, aggregating per item NAME via `remAdd`. -/
def firstPassAll (projects : List (String × List Item))
    (completed : String → String → Bool) :
    List (String × RemainingEntry) :=
  projects.foldl
    (fun m pi =>
      pi.2.foldl
        (fun m it =>
          if pi.1 = "Quest items" && nonKeepableQuestItems.contains it.name
          then m
          else
            remAdd m it.name
              { projectName := pi.1,
                quantity := parsedQuantity it.quantity,
                requirement := it.requirement,
                completed := isInstanceCompleted completed pi.1 it })
        m)
    []

/-- The second pass of `getAllItemsRemaining` (state-manager.ts lines
572-576): `item.remainingQuantity = Math.max(0, item.totalQuantity -
item.completedQuantity)`. -/
def setRemaining (e : RemainingEntry) : RemainingEntry :=
  { e with
    remainingQuantity := max 0 (e.totalQuantity - e.completedQuantity) }

/-- `DataLoader.getAllItemsRemaining(stateManager)` (state-manager.ts lines
521-579): the first pass above, then the second pass on every entry.
`completed` stands for `stateManager.isItemCompleted`. -/
def getAllItemsRemaining (projects : List (String × List Item))
    (completed : String → String → Bool) :
    List (String × RemainingEntry) :=
  (firstPassAll projects completed).map (fun e => (e.1, setRemaining e.2))

/-- JS `item.projectName || projectName`: the carried project name when it
is a truthy (non-empty) string, the passed-in one otherwise. -/
def jsOrStr (a : Option String) (b : String) : String :=
  match a with
  | some s => if s = "" then b else s
  | none => b

/-- `DataLoader.getCompletedCount(projectName, items, stateManager)`
(state-manager.ts lines 588-600): count items whose completion flag is
true; in the combined `"all"` mode each item's own carried `projectName`
is used for the lookup.  `completed` stands for
`stateManager.isItemCompleted`. -/
def getCompletedCount (projectName : String) (items : List Item)
    (completed : String → String → Bool) : Nat :=
  if projectName = "all" then
    items.foldl
      (fun c it =>
        c + (if completed (jsOrStr it.projectName projectName) it.id then 1
             else 0))
      0
  else
    items.foldl
      (fun c it => c + (if completed projectName it.id then 1 else 0))
      0

/-! Independent (claim-side) descriptions used to characterize the
aggregation results, stated per key rather than by the fold. -/

/-- The bucket a requirement token `req` receives from `items`: one copy
per occurrence of `req` among each item's trimmed tokens, in item order. -/
def bucketSpec (items : List Item) (req : String) : List Item :=
  match items with
  | [] => []
  | it :: rest =>
      ((splitRequirements it.requirement).filter (fun r => r = req)).map
        (fun r => itemForGroup it r)
        ++ bucketSpec rest req

/-- The combined-view contributions of item name `name`: every instance of
that name from every project, except non-keepable names from the quest
source, in catalog order, with its quantity, raw requirement and
all-split-identities completion flag. -/
def contributionsSpec (projects : List (String × List Item))
    (completed : String → String → Bool) (name : String) :
    List ProjectEntry :=
  match projects with
  | [] => []
  | (pn, items) :: rest =>
      (items.filter
          (fun it =>
            it.name = name
              ∧ ¬(pn = "Quest items" ∧ nonKeepableQuestItems.contains it.name))).map
        (fun it =>
          { projectName := pn,
            quantity := parsedQuantity it.quantity,
            requirement := it.requirement,
            completed := isInstanceCompleted completed pn it })
        ++ contributionsSpec rest completed name

end DataLoader

namespace DataLoader

theorem addInstance_wf {reg : List (String × ItemTotal)} {id : String}
    {inst : ItemInstance}
    (h : ∀ p ∈ reg,
      (p.2).totalNeeded = ((p.2).instances.map ItemInstance.quantity).sum) :
    ∀ p ∈ addInstance reg id inst,
      (p.2).totalNeeded = ((p.2).instances.map ItemInstance.quantity).sum := by
  induction reg with
  | nil =>
    intro p hp
    simp [addInstance] at hp
    subst hp
    simp
  | cons hd tl ih =>
    obtain ⟨k, t⟩ := hd
    intro p hp
    by_cases hk : k = id
    · simp [addInstance, hk] at hp
      rcases hp with hp | hp
      · subst hp
        have ht := h (k, t) (by simp)
        simp at ht
        simp [ht]
      · exact h p (by simp [hp])
    · simp [addInstance, hk] at hp
      rcases hp with hp | hp
      · subst hp
        exact h (k, t) (by simp)
      · exact ih (fun q hq => h q (by simp [hq])) p hp

theorem buildInner_wf (pn : String) (items : List Item) :
    ∀ (reg : List (String × ItemTotal)),
    (∀ p ∈ reg,
      (p.2).totalNeeded = ((p.2).instances.map ItemInstance.quantity).sum) →
    ∀ p ∈ items.foldl
        (fun reg it =>
          addInstance reg it.id
            { projectName := pn,
              quantity := parsedQuantity it.quantity,
              requirement := it.requirement })
        reg,
      (p.2).totalNeeded = ((p.2).instances.map ItemInstance.quantity).sum := by
  induction items with
  | nil => intro reg h; simpa using h
  | cons it rest ih =>
    intro reg h
    rw [List.foldl_cons]
    exact ih _ (addInstance_wf h)

theorem buildOuter_wf (projects : List (String × List Item)) :
    ∀ (reg : List (String × ItemTotal)),
    (∀ p ∈ reg,
      (p.2).totalNeeded = ((p.2).instances.map ItemInstance.quantity).sum) →
    ∀ p ∈ projects.foldl
        (fun reg pi =>
          pi.2.foldl
            (fun reg it =>
              addInstance reg it.id
                { projectName := pi.1,
                  quantity := parsedQuantity it.quantity,
                  requirement := it.requirement })
            reg)
        reg,
      (p.2).totalNeeded = ((p.2).instances.map ItemInstance.quantity).sum := by
  induction projects with
  | nil => intro reg h; simpa using h
  | cons pi rest ih =>
    intro reg h
    rw [List.foldl_cons]
    exact ih _ (buildInner_wf pi.1 pi.2 reg h)

theorem foldl_remaining (l : List ItemInstance) (p : ItemInstance → Bool) :
    ∀ init : Int,
      l.foldl (fun rem inst => if p inst then rem - inst.quantity else rem)
          init
        = init - ((l.filter p).map ItemInstance.quantity).sum := by
  induction l with
  | nil => intro init; simp
  | cons i rest ih =>
    intro init
    rw [List.foldl_cons, List.filter_cons]
    by_cases h : p i
    · rw [if_pos h, if_pos h, ih, List.map_cons, List.sum_cons]
      ring
    · rw [if_neg h, if_neg h, ih]

theorem foldl_count (p : Item → Bool) (l : List Item) :
    ∀ n : Nat,
      l.foldl (fun c it => c + (if p it then 1 else 0)) n = n + l.countP p := by
  induction l with
  | nil => intro n; simp
  | cons it rest ih =>
    intro n
    rw [List.foldl_cons, List.countP_cons]
    by_cases h : p it
    · rw [ih]; omega
    · rw [ih]; omega

end DataLoader

/-- C4: after every `buildItemTotals` call, each registry entry's
`totalNeeded` equals the sum of the quantities of its instances, and
rebuilding on an unchanged catalog yields an identical registry — the
previous registry is discarded, not accumulated into. -/
theorem dataLoader_buildItemTotals_invariant
    (prev : List (String × DataLoader.ItemTotal))
    (projects : List (String × List DataLoader.Item)) :
    (∀ p ∈ DataLoader.buildItemTotals prev projects,
      (p.2).totalNeeded
        = ((p.2).instances.map DataLoader.ItemInstance.quantity).sum)
    ∧ DataLoader.buildItemTotals (DataLoader.buildItemTotals prev projects)
        projects
      = DataLoader.buildItemTotals prev projects :=
  ⟨DataLoader.buildOuter_wf projects [] (by simp), rfl⟩

/-- C4 witness: a two-instance catalog sharing one id sums 3 + 2 = 5. -/
theorem dataLoader_buildItemTotals_invariant_witness :
    (5 : Int)
      = (([{ projectName := "Workshop items", quantity := 3,
             requirement := "Bench" },
           { projectName := "Workshop items", quantity := 2,
             requirement := "Saw" }] : List DataLoader.ItemInstance).map
          DataLoader.ItemInstance.quantity).sum :=
  (dataLoader_buildItemTotals_invariant []
    [("Workshop items",
      [{ name := "Wood", quantity := some "3", requirement := "Bench",
         id := "wood" },
       { name := "Wood", quantity := some "2", requirement := "Saw",
         id := "wood" }])]).1
    ("wood",
     { totalNeeded := 5,
       instances :=
         [{ projectName := "Workshop items", quantity := 3,
            requirement := "Bench" },
          { projectName := "Workshop items", quantity := 2,
            requirement := "Saw" }] })
    (List.Mem.head _)

/-- C3: for every id present in the Item Total Registry and every
completion state, `getRemainingTotal` returns `totalNeeded` minus the sum
of the quantities of the completed instances (those whose
`(instance.projectName, itemId)` lookup is true), clamped at zero, and is
never negative. -/
theorem dataLoader_getRemainingTotal_spec
    (reg : List (String × DataLoader.ItemTotal)) (itemId : String)
    (completed : String → String → Bool) (t : DataLoader.ItemTotal)
    (h : assocLookup reg itemId = some t) :
    DataLoader.getRemainingTotal reg itemId completed
      = max 0 (t.totalNeeded -
          ((t.instances.filter
              (fun i => completed i.projectName itemId)).map
            DataLoader.ItemInstance.quantity).sum)
    ∧ 0 ≤ DataLoader.getRemainingTotal reg itemId completed := by
  have he : DataLoader.getRemainingTotal reg itemId completed
      = max 0 (t.totalNeeded -
          ((t.instances.filter
              (fun i => completed i.projectName itemId)).map
            DataLoader.ItemInstance.quantity).sum) := by
    unfold DataLoader.getRemainingTotal
    rw [h]
    dsimp only
    rw [DataLoader.foldl_remaining]
  exact ⟨he, he ▸ le_max_left 0 _⟩

/-- C3 witness: completed quantity (7) exceeding totalNeeded (5) clamps the
remainder at 0 rather than going negative. -/
theorem dataLoader_getRemainingTotal_spec_witness :
    DataLoader.getRemainingTotal
        [("wood",
          { totalNeeded := 5,
            instances :=
              [{ projectName := "Workshop items", quantity := 7,
                 requirement := "Bench" }] })]
        "wood" (fun _ _ => true)
      = max 0 ((5 : Int) - 7) :=
  (dataLoader_getRemainingTotal_spec
    [("wood",
      { totalNeeded := 5,
        instances :=
          [{ projectName := "Workshop items", quantity := 7,
             requirement := "Bench" }] })]
    "wood" (fun _ _ => true)
    { totalNeeded := 5,
      instances :=
        [{ projectName := "Workshop items", quantity := 7,
           requirement := "Bench" }] }
    rfl).1

/-- C8: in the combined `"all"` mode, `getCompletedCount` counts exactly
the items whose completion flag under their own carried
`(item.projectName, item.id)` is true, for every item list whose items
carry (non-empty) projectName fields and every completion state. -/
theorem dataLoader_getCompletedCount_all (items : List DataLoader.Item)
    (completed : String → String → Bool)
    (h : ∀ it ∈ items, ∃ p, it.projectName = some p ∧ p ≠ "") :
    DataLoader.getCompletedCount "all" items completed
      = items.countP
          (fun it => completed (it.projectName.getD "") it.id) := by
  unfold DataLoader.getCompletedCount
  rw [if_pos rfl, DataLoader.foldl_count]
  rw [Nat.zero_add]
  induction items with
  | nil => simp
  | cons it rest ih =>
    obtain ⟨p, hp, hne⟩ := h it (by simp)
    simp only [List.countP_cons]
    rw [ih (fun x hx => h x (by simp [hx]))]
    congr 1
    simp [DataLoader.jsOrStr, hp, hne]

/-- C8 witness: two items carrying different projects; only the first
project's flag is set, so the count is 1. -/
theorem dataLoader_getCompletedCount_all_witness :
    DataLoader.getCompletedCount "all"
        [{ name := "A", quantity := none, requirement := "", id := "a",
           projectName := some "P1" },
         { name := "B", quantity := none, requirement := "", id := "b",
           projectName := some "P2" }]
        (fun p _ => p == "P1")
      = 1 :=
  (dataLoader_getCompletedCount_all _ _ (by
    intro it hit
    simp only [List.mem_cons, List.not_mem_nil, or_false] at hit
    rcases hit with rfl | rfl
    · exact ⟨"P1", rfl, by decide⟩
    · exact ⟨"P2", rfl, by decide⟩)).trans rfl

/-- C9 counterexample: a raw quantity of "-5" parses to the truthy number
-5, so the quantity used by `buildItemTotals` is -5, which is not an
integer ≥ 1. -/
theorem dataLoader_quantity_counterexample :
    DataLoader.buildItemTotals []
        [("Workshop items",
          [{ name := "Gadget", quantity := some "-5", requirement := "Bench",
             id := "gadget" }])]
      = [("gadget",
          { totalNeeded := -5,
            instances :=
              [{ projectName := "Workshop items", quantity := -5,
                 requirement := "Bench" }] })]
    ∧ ((-5 : Int) < 1) :=
  ⟨rfl, by decide⟩

/-- C9 (amended): the used quantity (`parseInt(raw, 10) || 1`, shared by
`buildItemTotals` and `getAllItemsRemaining`) is never 0 and parsing never
errors: it is 1 when the raw value is missing or non-numeric, equals the
parse when the parse is a truthy (nonzero) number — so negative parses are
carried through as-is — and it is ≥ 1 in every other case. -/
theorem dataLoader_quantity_policy (raw : Option String) :
    DataLoader.parsedQuantity raw ≠ 0
    ∧ (raw = none → DataLoader.parsedQuantity raw = 1)
    ∧ (∀ s, raw = some s → DataLoader.jsParseInt s = none →
        DataLoader.parsedQuantity raw = 1)
    ∧ (∀ s n, raw = some s → DataLoader.jsParseInt s = some n → n ≠ 0 →
        DataLoader.parsedQuantity raw = n)
    ∧ (1 ≤ DataLoader.parsedQuantity raw ∨
        ∃ s n, raw = some s ∧ DataLoader.jsParseInt s = some n ∧ n < 0 ∧
          DataLoader.parsedQuantity raw = n) := by
  refine ⟨?_, ?_, ?_, ?_, ?_⟩
  · cases raw with
    | none => simp [DataLoader.parsedQuantity]
    | some s =>
      cases hp : DataLoader.jsParseInt s with
      | none => simp [DataLoader.parsedQuantity, hp]
      | some n =>
        by_cases hz : n = 0 <;> simp [DataLoader.parsedQuantity, hp, hz]
  · intro h; subst h; rfl
  · intro s hs hn; subst hs; simp [DataLoader.parsedQuantity, hn]
  · intro s n hs hn hne; subst hs; simp [DataLoader.parsedQuantity, hn, hne]
  · cases raw with
    | none => left; simp [DataLoader.parsedQuantity]
    | some s =>
      cases hp : DataLoader.jsParseInt s with
      | none => left; simp [DataLoader.parsedQuantity, hp]
      | some n =>
        by_cases hz : n = 0
        · left; simp [DataLoader.parsedQuantity, hp, hz]
        · rcases lt_or_le n 0 with hneg | hpos
          · exact Or.inr ⟨s, n, rfl, hp, hneg,
              by simp [DataLoader.parsedQuantity, hp, hz]⟩
          · left
            have he : DataLoader.parsedQuantity (some s) = n := by
              simp [DataLoader.parsedQuantity, hp, hz]
            rw [he]; omega

/-- C9 witness: a plain numeric string is used as parsed. -/
theorem dataLoader_quantity_policy_witness :
    DataLoader.parsedQuantity (some "7") = 7 :=
  (dataLoader_quantity_policy (some "7")).2.2.2.1 "7" 7 rfl rfl (by decide)

namespace DataLoader

/-- The copies an item contributes to the bucket of token `k`: one per
occurrence of `k` among its trimmed tokens. -/
def tokenCopies (it : Item) (toks : List String) (k : String) : List Item :=
  (toks.filter (fun r => r = k)).map (fun r => itemForGroup it r)

theorem bucketSpec_cons (it : Item) (rest : List Item) (k : String) :
    bucketSpec (it :: rest) k
      = tokenCopies it (splitRequirements it.requirement) k
          ++ bucketSpec rest k := rfl

/-- Append new members onto the (possibly absent) current bucket, creating
it when nonempty members arrive. -/
def optAppend (cur : Option (List Item)) (xs : List Item) :
    Option (List Item) :=
  match cur with
  | none => if xs.isEmpty then none else some xs
  | some l => some (l ++ xs)

theorem optAppend_nil (cur : Option (List Item)) : optAppend cur [] = cur := by
  cases cur <;> simp [optAppend]

theorem optAppend_append (cur : Option (List Item)) (xs ys : List Item) :
    optAppend cur (xs ++ ys) = optAppend (optAppend cur xs) ys := by
  cases cur with
  | some l => simp [optAppend]
  | none =>
    cases xs with
    | nil => simp [optAppend]
    | cons x xs' =>
      cases ys <;> simp [optAppend]

theorem assocLookup_groupsAdd (gs : List (String × List Item)) (req : String)
    (it : Item) (k : String) :
    assocLookup (groupsAdd gs req it) k
      = if req = k then optAppend (assocLookup gs k) [it]
        else assocLookup gs k := by
  induction gs with
  | nil =>
    by_cases h : req = k <;> simp [groupsAdd, assocLookup, optAppend, h]
  | cons hd tl ih =>
    obtain ⟨k', l⟩ := hd
    by_cases hk' : k' = req
    · subst hk'
      by_cases hk : k' = k
      · subst hk
        simp [groupsAdd, assocLookup, optAppend]
      · simp [groupsAdd, assocLookup, optAppend, hk,
          show ¬(k' = k) from hk]
    · by_cases hk : k' = k
      · subst hk
        have hreq : ¬(req = k') := fun h => hk' h.symm
        simp [groupsAdd, assocLookup, optAppend, hk', hreq]
      · simp [groupsAdd, assocLookup, hk', hk, ih]

theorem assocLookup_tokFold (it : Item) (toks : List String) :
    ∀ (gs : List (String × List Item)) (k : String),
    assocLookup
        (toks.foldl (fun gs req => groupsAdd gs req (itemForGroup it req)) gs)
        k
      = optAppend (assocLookup gs k) (tokenCopies it toks k) := by
  induction toks with
  | nil => intro gs k; simp [tokenCopies, optAppend_nil]
  | cons r rest ih =>
    intro gs k
    rw [List.foldl_cons, ih]
    by_cases hr : r = k
    · subst hr
      rw [assocLookup_groupsAdd]
      rw [if_pos rfl]
      rw [← optAppend_append]
      congr 1
      simp [tokenCopies, List.filter_cons]
    · rw [assocLookup_groupsAdd, if_neg hr]
      congr 1
      simp [tokenCopies, List.filter_cons, hr]

theorem assocLookup_rawFold (items : List Item) :
    ∀ (gs : List (String × List Item)) (k : String),
    assocLookup
        (items.foldl
          (fun gs it =>
            (splitRequirements it.requirement).foldl
              (fun gs req => groupsAdd gs req (itemForGroup it req)) gs)
          gs)
        k
      = optAppend (assocLookup gs k) (bucketSpec items k) := by
  induction items with
  | nil => intro gs k; simp [bucketSpec, optAppend_nil]
  | cons it rest ih =>
    intro gs k
    rw [List.foldl_cons, ih, assocLookup_tokFold, bucketSpec_cons,
      optAppend_append]

theorem assocLookup_rawGroups (items : List Item) (k : String) :
    assocLookup (rawGroups items) k
      = if (bucketSpec items k).isEmpty then none
        else some (bucketSpec items k) := by
  rw [rawGroups, assocLookup_rawFold]
  rfl

theorem mem_keys_groupsAdd (gs : List (String × List Item)) (req : String)
    (it : Item) (k : String) :
    k ∈ (groupsAdd gs req it).map Prod.fst
      ↔ (k ∈ gs.map Prod.fst ∨ k = req) := by
  induction gs with
  | nil => simp [groupsAdd, eq_comm]
  | cons hd tl ih =>
    obtain ⟨k', l⟩ := hd
    by_cases hk' : k' = req
    · subst hk'
      have hrw : groupsAdd ((k', l) :: tl) k' it = (k', l ++ [it]) :: tl := by
        simp [groupsAdd]
      rw [hrw]
      simp only [List.map_cons]
      constructor
      · exact fun h => Or.inl h
      · rintro (h | rfl)
        · exact h
        · exact List.mem_cons_self _ _
    · simp [groupsAdd, hk', ih, or_assoc]

theorem nodup_keys_groupsAdd (gs : List (String × List Item)) (req : String)
    (it : Item) (h : (gs.map Prod.fst).Nodup) :
    ((groupsAdd gs req it).map Prod.fst).Nodup := by
  induction gs with
  | nil => simp [groupsAdd]
  | cons hd tl ih =>
    obtain ⟨k', l⟩ := hd
    simp only [List.map_cons, List.nodup_cons] at h
    by_cases hk' : k' = req
    · subst hk'
      simpa [groupsAdd, List.nodup_cons] using h
    · simp only [groupsAdd, hk', if_false, List.map_cons, List.nodup_cons]
      refine ⟨?_, ih h.2⟩
      rw [mem_keys_groupsAdd]
      rintro (hmem | rfl)
      · exact h.1 hmem
      · exact hk' rfl

theorem nodup_keys_tokFold (it : Item) (toks : List String) :
    ∀ (gs : List (String × List Item)),
    (gs.map Prod.fst).Nodup →
    ((toks.foldl (fun gs req => groupsAdd gs req (itemForGroup it req))
        gs).map Prod.fst).Nodup := by
  induction toks with
  | nil => intro gs h; simpa using h
  | cons r rest ih =>
    intro gs h
    rw [List.foldl_cons]
    exact ih _ (nodup_keys_groupsAdd gs r _ h)

theorem nodup_keys_rawGroups (items : List Item) :
    ((rawGroups items).map Prod.fst).Nodup := by
  rw [rawGroups]
  have h : ∀ (gs : List (String × List Item)),
      (gs.map Prod.fst).Nodup →
      ((items.foldl
          (fun gs it =>
            (splitRequirements it.requirement).foldl
              (fun gs req => groupsAdd gs req (itemForGroup it req)) gs)
          gs).map Prod.fst).Nodup := by
    induction items with
    | nil => intro gs h; simpa using h
    | cons it rest ih =>
      intro gs h
      rw [List.foldl_cons]
      exact ih _ (nodup_keys_tokFold it _ gs h)
  exact h [] (by simp)

theorem assocLookup_none_of_not_mem {α : Type} (l : List (String × α))
    (k : String) (h : k ∉ l.map Prod.fst) : assocLookup l k = none := by
  induction l with
  | nil => rfl
  | cons hd tl ih =>
    obtain ⟨k', v⟩ := hd
    simp only [List.map_cons, List.mem_cons] at h
    push_neg at h
    have hne : ¬(k' = k) := fun he => h.1 he.symm
    simp [assocLookup, hne, ih h.2]

theorem assocLookup_filter {α : Type} (Q : α → Bool)
    (l : List (String × α)) (k : String)
    (hnd : (l.map Prod.fst).Nodup) :
    assocLookup (l.filter (fun e => Q e.2)) k
      = (assocLookup l k).bind (fun v => if Q v then some v else none) := by
  induction l with
  | nil => rfl
  | cons hd tl ih =>
    obtain ⟨k', v⟩ := hd
    simp only [List.map_cons, List.nodup_cons] at hnd
    by_cases hk : k' = k
    · subst hk
      by_cases hq : Q v
      · simp [List.filter_cons, hq, assocLookup]
      · simp only [List.filter_cons]
        rw [if_neg (by simpa using hq)]
        have hnone : assocLookup (tl.filter (fun e => Q e.2)) k' = none := by
          apply assocLookup_none_of_not_mem
          intro hmem
          obtain ⟨e, he, hke⟩ := List.mem_map.mp hmem
          have h1 : e.1 ∈ tl.map Prod.fst :=
            List.mem_map_of_mem _ (List.mem_of_mem_filter he)
          rw [hke] at h1
          exact hnd.1 h1
        rw [hnone]
        simp [assocLookup, hq]
    · simp only [List.filter_cons]
      by_cases hq : Q v
      · rw [if_pos (by simpa using hq)]
        simp [assocLookup, hk, ih hnd.2]
      · rw [if_neg (by simpa using hq)]
        simp [assocLookup, hk, ih hnd.2]

theorem hasKeepable_eq_not_all (l : List Item) :
    hasKeepable l
      = !(l.all (fun it => nonKeepableQuestItems.contains it.name)) := by
  induction l with
  | nil => rfl
  | cons it rest ih =>
    simp [hasKeepable, List.any_cons, List.all_cons] at ih ⊢
    tauto

end DataLoader

/-- C2: for every item list, project name and requirement token,
`groupItemsByRequirement` buckets one independent copy per trimmed
comma-separated token of each item — each copy carrying that single
requirement and an id recomputed from (name, token) — and a bucket is
dropped from the result exactly when the project name is the quest-item
source "Quest items" AND every member of the bucket has a name in the
fixed non-keepable exclusion set; every other bucket, and every bucket of
every non-quest project, is kept unchanged. -/
theorem dataLoader_groupItemsByRequirement_spec
    (items : List DataLoader.Item) (projectName req : String) :
    assocLookup (DataLoader.groupItemsByRequirement items projectName) req
      = if (DataLoader.bucketSpec items req).isEmpty then none
        else if projectName = "Quest items" then
          (if (DataLoader.bucketSpec items req).all
              (fun it => DataLoader.nonKeepableQuestItems.contains it.name)
           then none
           else some (DataLoader.bucketSpec items req))
        else some (DataLoader.bucketSpec items req) := by
  unfold DataLoader.groupItemsByRequirement
  by_cases hq : projectName = "Quest items"
  · rw [if_pos hq,
      DataLoader.assocLookup_filter _ _ _
        (DataLoader.nodup_keys_rawGroups items),
      DataLoader.assocLookup_rawGroups]
    by_cases hb : (DataLoader.bucketSpec items req).isEmpty
    · rw [if_pos hb, if_pos hb]
      rfl
    · rw [if_neg hb, if_neg hb, if_pos hq]
      have hbind : (some (DataLoader.bucketSpec items req)).bind
          (fun v => if DataLoader.hasKeepable v then some v else none)
          = if DataLoader.hasKeepable (DataLoader.bucketSpec items req)
            then some (DataLoader.bucketSpec items req) else none := rfl
      rw [hbind, DataLoader.hasKeepable_eq_not_all]
      by_cases ha : (DataLoader.bucketSpec items req).all
          (fun it => DataLoader.nonKeepableQuestItems.contains it.name)
      · rw [if_pos ha, ha]
        rfl
      · have hfalse : (DataLoader.bucketSpec items req).all
            (fun it => DataLoader.nonKeepableQuestItems.contains it.name)
              = false := by
          cases hc : (DataLoader.bucketSpec items req).all
              (fun it => DataLoader.nonKeepableQuestItems.contains it.name)
          · rfl
          · exact absurd hc ha
        rw [if_neg ha, hfalse]
        rfl
  · rw [if_neg hq, DataLoader.assocLookup_rawGroups]
    by_cases hb : (DataLoader.bucketSpec items req).isEmpty
    · rw [if_pos hb, if_pos hb]
    · rw [if_neg hb, if_neg hb, if_neg hq]

namespace DataLoader

/-- The per-name summary a contribution list yields after the first pass
(`remainingQuantity` still the placeholder 0). -/
def entryOf (ps : List ProjectEntry) : RemainingEntry :=
  { totalQuantity := (ps.map ProjectEntry.quantity).sum,
    completedQuantity :=
      ((ps.filter ProjectEntry.completed).map ProjectEntry.quantity).sum,
    projects := ps,
    remainingQuantity := 0 }

/-- Merging further contributions into an existing summary. -/
def mergeEntry (e : RemainingEntry) (ps : List ProjectEntry) :
    RemainingEntry :=
  { totalQuantity := e.totalQuantity + (ps.map ProjectEntry.quantity).sum,
    completedQuantity :=
      e.completedQuantity
        + ((ps.filter ProjectEntry.completed).map ProjectEntry.quantity).sum,
    projects := e.projects ++ ps,
    remainingQuantity := e.remainingQuantity }

/-- Merge contributions into a possibly-absent summary, creating it when
nonempty contributions arrive. -/
def optMergeRem (cur : Option RemainingEntry) (ps : List ProjectEntry) :
    Option RemainingEntry :=
  match cur with
  | none => if ps.isEmpty then none else some (entryOf ps)
  | some e => some (mergeEntry e ps)

theorem mergeEntry_nil (e : RemainingEntry) : mergeEntry e [] = e := by
  cases e
  simp [mergeEntry]

theorem entryOf_merge (ps qs : List ProjectEntry) :
    mergeEntry (entryOf ps) qs = entryOf (ps ++ qs) := by
  simp [mergeEntry, entryOf, List.filter_append, List.map_append,
    List.sum_append]

theorem mergeEntry_append (e : RemainingEntry) (ps qs : List ProjectEntry) :
    mergeEntry (mergeEntry e ps) qs = mergeEntry e (ps ++ qs) := by
  simp [mergeEntry, List.filter_append, List.map_append, List.sum_append,
    add_assoc, List.append_assoc]

theorem optMergeRem_nil (cur : Option RemainingEntry) :
    optMergeRem cur [] = cur := by
  cases cur <;> simp [optMergeRem, mergeEntry_nil]

theorem optMergeRem_append (cur : Option RemainingEntry)
    (ps qs : List ProjectEntry) :
    optMergeRem cur (ps ++ qs) = optMergeRem (optMergeRem cur ps) qs := by
  cases cur with
  | some e => simp [optMergeRem, mergeEntry_append]
  | none =>
    cases ps with
    | nil => simp [optMergeRem]
    | cons p ps' =>
      cases qs <;> simp [optMergeRem, entryOf_merge]

theorem assocLookup_remAdd (m : List (String × RemainingEntry))
    (name : String) (pe : ProjectEntry) (k : String) :
    assocLookup (remAdd m name pe) k
      = if name = k then optMergeRem (assocLookup m k) [pe]
        else assocLookup m k := by
  induction m with
  | nil =>
    by_cases h : name = k
    · subst h
      by_cases c : pe.completed <;>
        simp [remAdd, assocLookup, optMergeRem, entryOf, c]
    · simp [remAdd, assocLookup, h]
  | cons hd tl ih =>
    obtain ⟨k', e⟩ := hd
    by_cases hk' : k' = name
    · subst hk'
      by_cases hk : k' = k
      · subst hk
        by_cases c : pe.completed <;>
          simp [remAdd, assocLookup, optMergeRem, mergeEntry, c]
      · simp [remAdd, assocLookup, hk]
    · by_cases hk : k' = k
      · subst hk
        have hne : ¬(name = k') := fun h => hk' h.symm
        simp [remAdd, assocLookup, hk', hne]
      · simp [remAdd, assocLookup, hk', hk, ih]

/-- The combined-view contributions of one project's item list to the
summary of `name`. -/
def projContribs (pn : String) (completed : String → String → Bool)
    (name : String) (items : List Item) : List ProjectEntry :=
  (items.filter
      (fun it =>
        it.name = name
          ∧ ¬(pn = "Quest items" ∧ nonKeepableQuestItems.contains it.name))).map
    (fun it =>
      { projectName := pn,
        quantity := parsedQuantity it.quantity,
        requirement := it.requirement,
        completed := isInstanceCompleted completed pn it })

theorem contributionsSpec_cons (pn : String) (items : List Item)
    (rest : List (String × List Item))
    (completed : String → String → Bool) (name : String) :
    contributionsSpec ((pn, items) :: rest) completed name
      = projContribs pn completed name items
          ++ contributionsSpec rest completed name := rfl

theorem assocLookup_projFold (pn : String)
    (completed : String → String → Bool) (items : List Item) :
    ∀ (m : List (String × RemainingEntry)) (name : String),
    assocLookup
        (items.foldl
          (fun m it =>
            if pn = "Quest items" && nonKeepableQuestItems.contains it.name
            then m
            else
              remAdd m it.name
                { projectName := pn,
                  quantity := parsedQuantity it.quantity,
                  requirement := it.requirement,
                  completed := isInstanceCompleted completed pn it })
          m)
        name
      = optMergeRem (assocLookup m name)
          (projContribs pn completed name items) := by
  induction items with
  | nil => intro m name; simp [projContribs, optMergeRem_nil]
  | cons it rest ih =>
    intro m name
    rw [List.foldl_cons, ih]
    by_cases hskip :
        (decide (pn = "Quest items")
          && nonKeepableQuestItems.contains it.name) = true
    · have hcontrib : projContribs pn completed name (it :: rest)
          = projContribs pn completed name rest := by
        unfold projContribs
        rw [List.filter_cons]
        rw [Bool.and_eq_true, decide_eq_true_eq] at hskip
        have hnp : ¬(it.name = name
            ∧ ¬(pn = "Quest items"
                  ∧ nonKeepableQuestItems.contains it.name)) :=
          fun hp => hp.2 ⟨hskip.1, hskip.2⟩
        rw [if_neg (by rw [decide_eq_true_eq]; exact hnp)]
      rw [if_pos hskip, hcontrib]
    · rw [if_neg hskip, assocLookup_remAdd]
      by_cases hname : it.name = name
      · have hcontrib : projContribs pn completed name (it :: rest)
            = { projectName := pn,
                quantity := parsedQuantity it.quantity,
                requirement := it.requirement,
                completed := isInstanceCompleted completed pn it }
                :: projContribs pn completed name rest := by
          unfold projContribs
          rw [List.filter_cons]
          have hyes : it.name = name
              ∧ ¬(pn = "Quest items"
                    ∧ nonKeepableQuestItems.contains it.name) := by
            refine ⟨hname, fun hcon => hskip ?_⟩
            rw [Bool.and_eq_true, decide_eq_true_eq]
            exact ⟨hcon.1, hcon.2⟩
          rw [if_pos (decide_eq_true hyes), List.map_cons]
        rw [if_pos hname, hcontrib, ← optMergeRem_append]
        rfl
      · have hcontrib : projContribs pn completed name (it :: rest)
            = projContribs pn completed name rest := by
          unfold projContribs
          rw [List.filter_cons]
          have hnp : ¬(it.name = name
              ∧ ¬(pn = "Quest items"
                    ∧ nonKeepableQuestItems.contains it.name)) :=
            fun hp => hname hp.1
          rw [if_neg (by rw [decide_eq_true_eq]; exact hnp)]
        rw [if_neg hname, hcontrib]

end DataLoader

namespace DataLoader

theorem assocLookup_firstPassAll (projects : List (String × List Item))
    (completed : String → String → Bool) :
    ∀ (m : List (String × RemainingEntry)) (name : String),
    assocLookup
        (projects.foldl
          (fun m pi =>
            pi.2.foldl
              (fun m it =>
                if pi.1 = "Quest items"
                    && nonKeepableQuestItems.contains it.name
                then m
                else
                  remAdd m it.name
                    { projectName := pi.1,
                      quantity := parsedQuantity it.quantity,
                      requirement := it.requirement,
                      completed := isInstanceCompleted completed pi.1 it })
              m)
          m)
        name
      = optMergeRem (assocLookup m name)
          (contributionsSpec projects completed name) := by
  induction projects with
  | nil => intro m name; simp [contributionsSpec, optMergeRem_nil]
  | cons pi rest ih =>
    intro m name
    obtain ⟨pn, items⟩ := pi
    rw [List.foldl_cons, ih, assocLookup_projFold, contributionsSpec_cons,
      optMergeRem_append]

theorem assocLookup_mapVal {α β : Type} (f : α → β)
    (l : List (String × α)) (k : String) :
    assocLookup (l.map (fun e => (e.1, f e.2))) k
      = (assocLookup l k).map f := by
  induction l with
  | nil => rfl
  | cons hd tl ih =>
    obtain ⟨k', v⟩ := hd
    by_cases h : k' = k <;> simp [assocLookup, h, ih]

/-- The per-name summary of the claim: totals and completed quantity are
sums over the contribution list (an instance counting as completed only
when its flag is set), and the remainder is clamped at zero. -/
def summarySpec (ps : List ProjectEntry) : RemainingEntry :=
  { totalQuantity := (ps.map ProjectEntry.quantity).sum,
    completedQuantity :=
      ((ps.filter ProjectEntry.completed).map ProjectEntry.quantity).sum,
    projects := ps,
    remainingQuantity :=
      max 0 ((ps.map ProjectEntry.quantity).sum
        - ((ps.filter ProjectEntry.completed).map ProjectEntry.quantity).sum) }

end DataLoader

/-- C1: in the combined per-name view, for every catalog, completion state
and item name: the entry for a name collects exactly the instances of that
name across all projects minus the non-keepable quest instances (which are
omitted from totals, completed count and the contributing-projects list
alike); an instance's quantity is added to `completedQuantity` precisely
when every one of its split identities (one per trimmed comma token, id
recomputed per token) is complete in that instance's project; and
`remainingQuantity = max(0, totalQuantity - completedQuantity)`. -/
theorem dataLoader_getAllItemsRemaining_spec
    (projects : List (String × List DataLoader.Item))
    (completed : String → String → Bool) (name : String) :
    assocLookup (DataLoader.getAllItemsRemaining projects completed) name
      = if (DataLoader.contributionsSpec projects completed name).isEmpty
        then none
        else some (DataLoader.summarySpec
            (DataLoader.contributionsSpec projects completed name)) := by
  unfold DataLoader.getAllItemsRemaining
  rw [DataLoader.assocLookup_mapVal]
  unfold DataLoader.firstPassAll
  rw [DataLoader.assocLookup_firstPassAll]
  cases hc : DataLoader.contributionsSpec projects completed name with
  | nil => rfl
  | cons p ps => rfl
